import Mathlib

/-!
A shallow embedding of the `sompong` LINE-webhook service and proofs about it.

The embedding follows the TypeScript sources:
* the in-memory `MessageStore` (per-conversation history buckets with a
  history limit, a TTL, and a conversation-count cap), from the service file
  that the route module wires up (the six-argument `LineWebhookService`);
* `verifySignature` (HMAC-SHA256 over the raw body, base64, length check
  plus constant-time comparison), with the HMAC itself — a Node `crypto`
  collaborator, not repository code — kept as an abstract function argument;
* the command router `handleEvent` / `handleWebhook` with the summary,
  help, fortune and research handlers, backend and reply delivery modelled
  as oracle functions returning `Except`;
* the event-planner JSON handling of the alternate service variant
  (`safeJsonParse` result, JS truthiness / `typeof` checks, `??` defaults);
* the `POST /webhook/line` gateway (signature check, JSON parse, envelope
  shape check, batch dispatch).

JS `Map` is modelled as an insertion-ordered association list; epoch-millis
timestamps as `Int`; JS `number` limits as `Nat` (the service is configured
with non-negative counts).
-/

set_option maxRecDepth 8192

/-- One stored chat turn (`MessageEntry` in `model.ts`): optional sender id,
text, epoch-millisecond timestamp. -/
structure MessageEntry where
  userId : Option String
  text : String
  timestamp : Int
deriving DecidableEq, Repr

/-- A per-conversation history bucket (`ConversationBucket` in the service):
ordered items (oldest first) and the last-touched time. -/
structure ConversationBucket where
  items : List MessageEntry
  lastSeen : Int
deriving DecidableEq, Repr

/-- The `Map<string, ConversationBucket>` inside `MessageStore`, as an
insertion-ordered association list (JS `Map` preserves insertion order;
re-`set` after `delete` moves a key to the end). -/
abbrev Store := List (String × ConversationBucket)

/-- The three numeric parameters of the `MessageStore` constructor:
per-bucket history limit, TTL in milliseconds, conversation-count cap. -/
structure StoreConfig where
  limit : Nat
  ttlMs : Int
  maxConversations : Nat
deriving DecidableEq, Repr

/-- `this.history.get(id)`. -/
def storeLookup (id : String) (st : Store) : Option ConversationBucket :=
  (st.find? (fun kv => kv.1 == id)).map (fun kv => kv.2)

/-- `this.history.delete(id)` (keys are unique in a JS `Map`, so deleting
the one entry equals filtering the key out). -/
def storeErase (id : String) (st : Store) : Store :=
  st.filter (fun kv => !(kv.1 == id))

/-- `items.splice(0, items.length - limit)` guarded by
`items.length > limit`: drop from the front down to `limit` entries. -/
def listTruncFront (limit : Nat) (xs : List MessageEntry) : List MessageEntry :=
  if xs.length > limit then xs.drop (xs.length - limit) else xs

/-- The capacity loop of `MessageStore.cleanup`:
`while (size > max) { k = first key; if (!k) break; delete k }`.
An empty-string first key is falsy in JS, so the loop breaks on it. -/
def evictOldest (maxConversations : Nat) : Store → Store
  | [] => []
  | kv :: rest =>
    if (kv :: rest).length ≤ maxConversations then kv :: rest
    else if kv.1 == "" then kv :: rest
    else evictOldest maxConversations rest

/-- `MessageStore.cleanup(now)`: TTL pass (remove every bucket with
`now - lastSeen > ttlMs` when `ttlMs > 0`), then capacity pass
(evict from the front while over `maxConversations`, when it is positive). -/
def cleanup (cfg : StoreConfig) (now : Int) (st : Store) : Store :=
  let afterTtl :=
    if cfg.ttlMs > 0 then
      st.filter (fun kv => decide (now - kv.2.lastSeen ≤ cfg.ttlMs))
    else st
  if cfg.maxConversations > 0 then evictOldest cfg.maxConversations afterTtl
  else afterTtl

/-- `MessageStore.add`: cleanup, fetch-or-create the bucket, push the entry,
truncate from the front to `limit`, stamp `lastSeen := now`, and re-insert
the bucket at the end of the map (most-recently-used position). -/
def storeAdd (cfg : StoreConfig) (id : String) (entry : MessageEntry)
    (now : Int) (st : Store) : Store :=
  let st1 := cleanup cfg now st
  let bucket := (storeLookup id st1).getD ⟨[], now⟩
  let items := listTruncFront cfg.limit (bucket.items ++ [entry])
  storeErase id st1 ++ [(id, ⟨items, now⟩)]

/-- `MessageStore.getRecent`: cleanup, and if the bucket exists refresh its
`lastSeen`, move it to the most-recently-used position, and return the last
`min(n, length)` items in original (oldest-first) order. -/
def storeGetRecent (cfg : StoreConfig) (id : String) (n : Nat) (now : Int)
    (st : Store) : List MessageEntry × Store :=
  let st1 := cleanup cfg now st
  match storeLookup id st1 with
  | none => ([], st1)
  | some b =>
    (if b.items.length ≤ n then b.items else b.items.drop (b.items.length - n),
     storeErase id st1 ++ [(id, ⟨b.items, now⟩)])

/-- One store operation together with the `Date.now()` value observed when
it runs. -/
inductive StoreOp where
  | add (now : Int) (id : String) (entry : MessageEntry)
  | get (now : Int) (id : String) (n : Nat)
deriving DecidableEq, Repr

/-- The store after one operation (the returned value of `getRecent` is
dropped here). -/
def applyOp (cfg : StoreConfig) (st : Store) : StoreOp → Store
  | .add now id e => storeAdd cfg id e now st
  | .get now id n => (storeGetRecent cfg id n now st).2

/-- The store after a sequence of operations. -/
def runOps (cfg : StoreConfig) (ops : List StoreOp) (st : Store) : Store :=
  ops.foldl (applyOp cfg) st

/-- The service constructor's translation of configuration:
`ttlMs = ttlMinutes > 0 ? ttlMinutes * 60_000 : 0`. -/
def mkServiceStoreConfig (historyLimit : Nat) (ttlMinutes : Int)
    (maxConversations : Nat) : StoreConfig :=
  ⟨historyLimit, if ttlMinutes > 0 then ttlMinutes * 60000 else 0,
   maxConversations⟩

/-- The conversation id of an operation. -/
def StoreOp.opId : StoreOp → String
  | .add _ id _ => id
  | .get _ id _ => id

/-- The clock value of an operation. -/
def StoreOp.opTime : StoreOp → Int
  | .add now _ _ => now
  | .get now _ _ => now

/-- The items of the bucket for `id`, or `[]` when absent. -/
def bucketItems (id : String) (st : Store) : List MessageEntry :=
  match storeLookup id st with
  | some b => b.items
  | none => []

/-- The entries appended to conversation `id` by a sequence of operations,
in arrival order. -/
def appendsTo (id : String) (ops : List StoreOp) : List MessageEntry :=
  ops.filterMap (fun op =>
    match op with
    | .add _ id' e => if id' = id then some e else none
    | .get _ _ _ => none)

/-- Specification-side phrasing of FIFO truncation: the most recent `n`
elements in their original order. (Compared against `listTruncFront`,
the translation of the code's `splice`.) -/
def specMostRecent (n : Nat) (xs : List MessageEntry) : List MessageEntry :=
  (xs.reverse.take n).reverse

example :
    runOps ⟨2, 0, 0⟩
      [.add 0 "c" ⟨none, "a", 0⟩, .add 1 "c" ⟨none, "b", 1⟩,
       .add 2 "c" ⟨none, "c", 2⟩] [] =
      [("c", ⟨[⟨none, "b", 1⟩, ⟨none, "c", 2⟩], 2⟩)] := by decide

example :
    (storeGetRecent ⟨5, 0, 1⟩ "A" 10 3
        (runOps ⟨5, 0, 1⟩
          [.add 0 "A" ⟨none, "a", 0⟩, .add 1 "B" ⟨none, "b", 1⟩] [])).1 =
      [] := by decide

example :
    (storeGetRecent ⟨5, 0, 1⟩ "B" 10 3
        (runOps ⟨5, 0, 1⟩
          [.add 0 "A" ⟨none, "a", 0⟩, .add 1 "B" ⟨none, "b", 1⟩] [])).1 =
      [⟨none, "b", 1⟩] := by decide

example :
    (runOps ⟨5, 0, 1⟩
        [.add 0 "A" ⟨none, "a", 0⟩, .add 1 "B" ⟨none, "b", 1⟩] []).length =
      2 := by decide

/-- `LineWebhookService.verifySignature`.  The HMAC-SHA256/base64 digest
computation is Node `crypto`, an external collaborator, and is passed in as
the abstract function `hmacB64 : secret → rawBody → digest`.  The code
returns `false` on an absent or empty (falsy) signature, then compares the
UTF-8 encodings of digest and signature: first by length, then bytewise via
`timingSafeEqual`.  UTF-8 encoding is injective, so equal lengths plus equal
bytes is exactly string equality. -/
def verifySignature (hmacB64 : String → String → String) (secret : String)
    (rawBody : String) (signature : Option String) : Bool :=
  match signature with
  | none => false
  | some sig =>
    if sig == "" then false
    else
      let digest := hmacB64 secret rawBody
      if digest.utf8ByteSize ≠ sig.utf8ByteSize then false
      else digest == sig

/-- JS regex word character (`\w` without the `u` flag): `[A-Za-z0-9_]`. -/
def isWordChar (c : Char) : Bool :=
  ('a' ≤ c ∧ c ≤ 'z') ∨ ('A' ≤ c ∧ c ≤ 'Z') ∨ ('0' ≤ c ∧ c ≤ '9') ∨ c = '_'

/-- JS whitespace as used by `\s` and `String.prototype.trim` (ASCII part;
the service only ever feeds it chat text). -/
def isSpaceChar (c : Char) : Bool :=
  c = ' ' ∨ c = '\t' ∨ c = '\n' ∨ c = '\r' ∨ c = '\x0b' ∨ c = '\x0c'

/-- `String.prototype.trim()`. -/
def jsTrim (s : String) : String :=
  ⟨((s.data.dropWhile isSpaceChar).reverse.dropWhile isSpaceChar).reverse⟩

/-- Case-insensitive (`/i`) anchored prefix test: the lowered first
`pat.length` characters of `t` equal `pat` (itself lowercase). -/
def startsWithCI (pat : List Char) (t : List Char) : Bool :=
  (t.take pat.length).map Char.toLower == pat && decide (pat.length ≤ t.length)

/-- `/^\/summary\b/i`: the word boundary after the final `y` holds iff the
next character is absent or not a word character. -/
def matchSummary (t : String) : Bool :=
  startsWithCI "/summary".data t.data &&
    (match t.data.drop 8 with
     | [] => true
     | c :: _ => !isWordChar c)

/-- `/^\/help\b/i`. -/
def matchHelp (t : String) : Bool :=
  startsWithCI "/help".data t.data &&
    (match t.data.drop 5 with
     | [] => true
     | c :: _ => !isWordChar c)

/-- `(\s|$)` at position `n`. -/
def spaceOrEndAt (n : Nat) (t : List Char) : Bool :=
  match t.drop n with
  | [] => true
  | c :: _ => isSpaceChar c

/-- `/^\/(fortune|duang|ดูดวง)(\s|$)/i`. -/
def matchFortune (t : String) : Bool :=
  (startsWithCI "/fortune".data t.data && spaceOrEndAt 8 t.data) ||
  (startsWithCI "/duang".data t.data && spaceOrEndAt 6 t.data) ||
  (startsWithCI "/ดูดวง".data t.data && spaceOrEndAt 6 t.data)

/-- `/^\/research\b/i`. -/
def matchResearch (t : String) : Bool :=
  startsWithCI "/research".data t.data &&
    (match t.data.drop 9 with
     | [] => true
     | c :: _ => !isWordChar c)

/-- `trimCommand(text, command)`:
`text.replace(new RegExp("^/" + command + "\\s*", "i"), "").trim()`.
`cmd` is the command word (lowercase, no slash). -/
def trimCommand (t : String) (cmd : List Char) : String :=
  jsTrim
    ⟨if startsWithCI ('/' :: cmd) t.data then
        (t.data.drop (cmd.length + 1)).dropWhile isSpaceChar
      else t.data⟩

example : matchSummary "/summary" = true := by decide
example : matchSummary "/SUMMARY please" = true := by decide
example : matchSummary "/summaryx" = false := by decide
example : matchSummary "/summary2" = false := by decide
example : matchSummary " /summary" = false := by decide
example : matchResearch "/research" = true := by decide
example : matchResearch "/researching" = false := by decide
example : matchFortune "/duang" = true := by decide
example : matchFortune "/ดูดวง วันนี้" = true := by decide
example : matchFortune "/fortunes" = false := by decide
example : trimCommand "/research   " "research".data = "" := by decide
example : trimCommand "/research ชาบู" "research".data = "ชาบู" := by decide
example : jsTrim "  hi  " = "hi" := by decide

/-- `source` of an inbound LINE event (`model.ts`). -/
structure LineSource where
  type : String
  userId : Option String
  groupId : Option String
  roomId : Option String
deriving DecidableEq, Repr

/-- `message` of an inbound LINE event (`model.ts`). -/
structure LineMessage where
  id : Option String
  type : String
  text : Option String
deriving DecidableEq, Repr

/-- One inbound LINE webhook event (`model.ts`).  The service reads
`event.timestamp ?? Date.now()`, so the timestamp is kept optional here. -/
structure LineWebhookEvent where
  type : String
  timestamp : Option Int
  replyToken : Option String
  source : LineSource
  message : Option LineMessage
deriving DecidableEq, Repr

/-- JS truthiness of an optional string: absent and `""` are falsy. -/
def strTruthy : Option String → Bool
  | none => false
  | some s => !(s == "")

/-- `buildConversationId`: `group:` / `room:` / `user:` prefixed source ids
tried in that order (JS truthiness, so an empty id falls through), else
`"unknown"`. -/
def buildConversationId (e : LineWebhookEvent) : String :=
  if strTruthy e.source.groupId then "group:" ++ e.source.groupId.getD ""
  else if strTruthy e.source.roomId then "room:" ++ e.source.roomId.getD ""
  else if strTruthy e.source.userId then "user:" ++ e.source.userId.getD ""
  else "unknown"

/-- Observable calls to the external collaborators: Gemini text generation,
Gemini generation with Google-Search grounding, and LINE reply delivery. -/
inductive Effect where
  | gen (prompt : String)
  | genSearch (prompt : String)
  | reply (token : String) (text : String)
deriving DecidableEq, Repr

/-- The external collaborators of the service, as oracle functions:
`gen`/`genSearch` model `GeminiClient` (which may throw), `send` models
`LineClient.replyText` (which throws on a non-ok response), and `iso`
models `new Date(ts).toISOString()`. -/
structure ServiceEnv where
  gen : String → Except String String
  genSearch : String → Except String (String × List String)
  send : String → String → Except String Unit
  iso : Int → String

/-- `LineWebhookService` state: channel secret, store configuration,
`summaryLimit`, and the collaborator oracles. -/
structure Service where
  secret : String
  cfg : StoreConfig
  summaryLimit : Nat
  env : ServiceEnv

/-- `formatMessages`: one `isoTime | sender | text` line per entry, joined
with newlines; `entry.userId ?? "unknown"`. -/
def formatMessages (iso : Int → String) (messages : List MessageEntry) : String :=
  String.intercalate "\n"
    (messages.map (fun en =>
      iso en.timestamp ++ " | " ++ en.userId.getD "unknown" ++ " | " ++ en.text))

/-- `HELP_TEXT`. -/
def helpText : String :=
  String.intercalate "\n"
    ["คำสั่งที่ใช้งานได้:",
     "/help - แสดงรายการคำสั่ง",
     "/fortune - ดูดวงสั้นๆ",
     "/summary - สรุปบทสนทนาล่าสุด",
     "/research <คำถาม> - ค้นเว็บและสรุปคำตอบพร้อมอ้างอิง"]

/-- The fixed prompt of `handleFortune`. -/
def fortunePrompt : String :=
  String.intercalate "\n"
    ["คุณคือหมอดูสายกวนในแชตกลุ่ม LINE",
     "ทำนายดวงจากดวงดาวที่เรียกกันในวันนี้",
     "ตอบเป็นภาษาไทยแบบกวนๆ สุภาพ ไม่หยาบคาย",
     "ความยาว 1-2 ประโยค ไม่เกิน 120 ตัวอักษร"]

/-- The `||` fallback of `handleFortune`. -/
def fortuneFallback : String :=
  "ดวงวันนี้: มีคนจะชวนทำเรื่องใหญ่ แต่เริ่มจากกินข้าวก่อน"

/-- `handleSummary`'s reply when the filtered history is empty. -/
def summaryEmptyReply : String := "ยังไม่มีข้อความให้สรุปในตอนนี้"

/-- `handleSummary`'s `||` fallback for blank model output. -/
def summaryFallback : String := "สรุปไม่สำเร็จ ลองใหม่อีกครั้งนะ"

/-- The prompt of `handleSummary` over the filtered history. -/
def summaryPrompt (iso : Int → String) (history : List MessageEntry) : String :=
  String.intercalate "\n"
    ["คุณคือ \"เลขาหน้าห้อง\" ที่สรุปแชตกลุ่ม LINE ให้สั้น กระชับ และเป็นภาษาไทย",
     "ใช้เฉพาะข้อมูลที่ให้มา ห้ามเดาเพิ่ม",
     "สรุปเป็นหัวข้อสั้นๆ พร้อมหัวข้อย่อยสั้นๆ 3-7 ข้อ",
     "ปิดท้ายด้วย \"ประเด็นค้าง\" ถ้ามีคำถาม/การตัดสินใจที่ยังไม่ได้ข้อสรุป",
     "",
     "แชตล่าสุด:",
     formatMessages iso history]

/-- `handleResearch`'s usage-hint reply for an empty query. -/
def researchUsage : String :=
  "พิมพ์คำถามต่อท้าย /research เช่น /research ร้านชาบูสยาม ราคาไม่เกิน 500"

/-- `handleResearch`'s `||` fallback for blank model output. -/
def researchFallback : String := "ยังตอบไม่ได้ ลองถามใหม่พร้อมรายละเอียดเพิ่มเติม"

/-- The prompt of `handleResearch`. -/
def researchPrompt (iso : Int → String) (query : String)
    (history : List MessageEntry) : String :=
  String.intercalate "\n"
    ["คุณคือผู้ช่วยหาข้อมูลจากเว็บและช่วยตัดสินใจในกลุ่ม LINE",
     "ใช้ผลค้นเว็บจาก Google Search ที่ระบบให้มาเป็นหลัก",
     "ตอบเป็นภาษาไทย กระชับ และจัดเป็นหัวข้อ",
     "ถ้าข้อมูลอัปเดตยังไม่ชัดเจน ให้บอกความไม่แน่นอนอย่างตรงไปตรงมา",
     "",
     "คำถาม: " ++ query,
     "",
     "บริบทจากแชตล่าสุด (ถ้ามี):",
     formatMessages iso history]

/-- `(source, index) => `${index + 1}. ${source}``. -/
def numberSources (xs : List String) : List String :=
  xs.enum.map (fun p => toString (p.1 + 1) ++ ". " ++ p.2)

/-- Outcome of one `LineClient.replyText` call: `none` on success, the
thrown message on failure. -/
def sendOutcome (svc : Service) (token text : String) : Option String :=
  match svc.env.send token text with
  | .ok _ => none
  | .error m => some m

/-- A handler result: the store afterwards, the collaborator calls made,
and the exception (if one was thrown). -/
abbrev HandlerResult := Store × List Effect × Option String

/-- `handleHelp`. -/
def handleHelp (svc : Service) (st : Store) (token : String) : HandlerResult :=
  (st, [.reply token helpText], sendOutcome svc token helpText)

/-- `handleFortune`. -/
def handleFortune (svc : Service) (st : Store) (token : String) : HandlerResult :=
  match svc.env.gen fortunePrompt with
  | .error m => (st, [.gen fortunePrompt], some m)
  | .ok f =>
    let answer := if jsTrim f == "" then fortuneFallback else jsTrim f
    let msg := "ดวงวันนี้: " ++ answer
    (st, [.gen fortunePrompt, .reply token msg], sendOutcome svc token msg)

/-- The history that `handleSummary` embeds into its prompt
(`const history = this.store.getRecent(...).filter(...)`): the recent
entries with the `/summary` invocations filtered out, in order. -/
def summaryEmbeddedHistory (svc : Service) (now : Int) (st : Store)
    (cid : String) : List MessageEntry :=
  ((storeGetRecent svc.cfg cid svc.summaryLimit now st).1).filter
    (fun en => !matchSummary en.text)

/-- `handleSummary`: read recent history (refreshing recency), filter out
`/^\/summary\b/i` entries, reply a fixed string when nothing remains,
otherwise prompt the backend and reply its trimmed output (or a fixed
fallback when blank). -/
def handleSummary (svc : Service) (now : Int) (st : Store) (cid token : String) :
    HandlerResult :=
  if (summaryEmbeddedHistory svc now st cid).isEmpty then
    ((storeGetRecent svc.cfg cid svc.summaryLimit now st).2,
     [.reply token summaryEmptyReply], sendOutcome svc token summaryEmptyReply)
  else
    match svc.env.gen
        (summaryPrompt svc.env.iso (summaryEmbeddedHistory svc now st cid)) with
    | .error m =>
      ((storeGetRecent svc.cfg cid svc.summaryLimit now st).2,
       [.gen (summaryPrompt svc.env.iso (summaryEmbeddedHistory svc now st cid))],
       some m)
    | .ok s =>
      ((storeGetRecent svc.cfg cid svc.summaryLimit now st).2,
       [.gen (summaryPrompt svc.env.iso (summaryEmbeddedHistory svc now st cid)),
        .reply token (if jsTrim s == "" then summaryFallback else jsTrim s)],
       sendOutcome svc token (if jsTrim s == "" then summaryFallback else jsTrim s))

/-- `handleResearch`: strip the command, reply a usage hint when the query
is empty; otherwise read 30 recent entries and call the search-grounded
backend, appending up to two numbered source URIs to the reply. -/
def handleResearch (svc : Service) (now : Int) (st : Store)
    (cid token text : String) : HandlerResult :=
  let query := trimCommand text "research".data
  if query == "" then
    (st, [.reply token researchUsage], sendOutcome svc token researchUsage)
  else
    let r := storeGetRecent svc.cfg cid 30 now st
    let prompt := researchPrompt svc.env.iso query r.1
    match svc.env.genSearch prompt with
    | .error m => (r.2, [.genSearch prompt], some m)
    | .ok tr =>
      let answer := if jsTrim tr.1 == "" then researchFallback else jsTrim tr.1
      let src :=
        if tr.2.isEmpty then ""
        else "\n\nอ้างอิงจากเว็บ:\n" ++
          String.intercalate "\n" (numberSources (tr.2.take 2))
      let msg := answer ++ src
      (r.2, [.genSearch prompt, .reply token msg], sendOutcome svc token msg)

/-- `handleEvent`: filter to text message events, record the message in the
store, stop if the reply token is falsy, then dispatch on the first
matching command pattern (summary, help, fortune, research). -/
def handleEvent (svc : Service) (now : Int) (st : Store)
    (e : LineWebhookEvent) : HandlerResult :=
  if e.type ≠ "message" then (st, [], none)
  else
    match e.message with
    | none => (st, [], none)
    | some m =>
      if m.type ≠ "text" then (st, [], none)
      else
        let text := jsTrim (m.text.getD "")
        let cid := buildConversationId e
        let ts := e.timestamp.getD now
        let st1 := storeAdd svc.cfg cid ⟨e.source.userId, text, ts⟩ now st
        if !strTruthy e.replyToken then (st1, [], none)
        else
          let token := e.replyToken.getD ""
          if matchSummary text then handleSummary svc now st1 cid token
          else if matchHelp text then handleHelp svc st1 token
          else if matchFortune text then handleFortune svc st1 token
          else if matchResearch text then handleResearch svc now st1 cid token text
          else (st1, [], none)

/-- `handleWebhook`: process the batch sequentially; each event's handling
is wrapped in `try { … } catch (err) { console.error(…) }`, so a thrown
error is dropped and the remaining events still run. -/
def handleWebhook (svc : Service) (now : Int) (st : Store) :
    List LineWebhookEvent → Store × List Effect
  | [] => (st, [])
  | e :: rest =>
    let r := handleEvent svc now st e
    let r2 := handleWebhook svc now r.1 rest
    (r2.1, r.2.1 ++ r2.2)

/-- The parsed webhook envelope; `events` is `some` exactly when the JSON
body has an `events` array (`!payload.events || !Array.isArray(...)`). -/
structure WebhookBody where
  destination : Option String
  events : Option (List LineWebhookEvent)

/-- Response classes of `POST /webhook/line`: 200 ok, 401 invalid
signature, 400 invalid JSON body, 400 invalid webhook payload. -/
inductive GatewayResult where
  | ok
  | unauthorized
  | badJson
  | badPayload
deriving DecidableEq, Repr

/-- The `POST /webhook/line` route: verify the signature first (rejecting
with 401 before anything else), then parse JSON (modelled by the `parse`
oracle), check the envelope shape, and only then run `handleWebhook`. -/
def gatewayPost (svc : Service) (hmacB64 : String → String → String)
    (parse : String → Option WebhookBody) (now : Int) (st : Store)
    (rawBody : String) (signature : Option String) :
    GatewayResult × Store × List Effect :=
  if !(verifySignature hmacB64 svc.secret rawBody signature) then
    (.unauthorized, st, [])
  else
    match parse rawBody with
    | none => (.badJson, st, [])
    | some payload =>
      match payload.events with
      | none => (.badPayload, st, [])
      | some evs =>
        let r := handleWebhook svc now st evs
        (.ok, r.1, r.2)

/-- JSON values, as produced by `JSON.parse` (numbers restricted to the
integers the planner contract uses). -/
inductive Json where
  | null
  | bool (b : Bool)
  | num (n : Int)
  | str (s : String)
  | arr (elems : List Json)
  | obj (fields : List (String × Json))

/-- JS truthiness of a parsed JSON value (`!parsed`). -/
def jsTruthy : Json → Bool
  | .null => false
  | .bool b => b
  | .num n => !(n == 0)
  | .str s => !(s == "")
  | .arr _ => true
  | .obj _ => true

/-- `typeof parsed === "object"`: true for objects, arrays, and `null`. -/
def typeofIsObject : Json → Bool
  | .null => true
  | .arr _ => true
  | .obj _ => true
  | _ => false

/-- Property access `data.k` on a parsed value: defined members of objects
only (`JSON.parse` keeps the last of duplicate keys). -/
def getField : Json → String → Option Json
  | .obj fields, k => (fields.reverse.find? (fun kv => kv.1 == k)).map (fun kv => kv.2)
  | _, _ => none

/-- `data.k ?? d`: the field unless it is absent or `null`. -/
def fieldOr (j : Json) (k : String) (d : Json) : Json :=
  match getField j k with
  | none => d
  | some .null => d
  | some v => v

/-- The seven extracted-and-defaulted fields of `handleEventPlanner`. -/
structure PlanFields where
  title : Json
  datetime : Json
  durationMinutes : Json
  location : Json
  participants : Json
  openQuestions : Json
  pollOptions : Json

/-- What `handleEventPlanner` replies after parsing the model output:
either the fixed could-not-parse-plan fallback message, or a single
formatted plan reply built from the defaulted fields. -/
inductive PlannerOutcome where
  | fallback
  | plan (p : PlanFields)

/-- `handleEventPlanner`'s fixed fallback reply text. -/
def plannerFallbackText : String :=
  "ยังสรุปแผนการนัดหมายไม่สำเร็จ ลองพิมพ์รายละเอียดเพิ่ม เช่น วัน เวลา สถานที่"

/-- The parse-and-default step of `handleEventPlanner` (`service.ts`):
`safeJsonParse` yields `null` for unparseable output (modelled here as the
input `Json.null`), the guard is `!parsed || typeof parsed !== "object"`,
and each field defaults via `??`.  Defaults: title `"นัดหมาย"`, location
`null`, datetime `null`, durationMinutes `90`, participants/openQuestions/
pollOptions `[]`. -/
def plannerOutcome (parsed : Json) : PlannerOutcome :=
  if !jsTruthy parsed || !typeofIsObject parsed then .fallback
  else
    .plan
      { title := fieldOr parsed "title" (.str "นัดหมาย")
        location := fieldOr parsed "location" .null
        datetime := fieldOr parsed "datetime" .null
        durationMinutes := fieldOr parsed "durationMinutes" (.num 90)
        participants := fieldOr parsed "participants" (.arr [])
        openQuestions := fieldOr parsed "openQuestions" (.arr [])
        pollOptions := fieldOr parsed "pollOptions" (.arr []) }

/-- Whether the outcome is the fallback reply. -/
def plannerIsFallback : PlannerOutcome → Bool
  | .fallback => true
  | .plan _ => false

/-- Whether a JSON value is an object (the sense used by the claim: a JSON
object literal `{…}`). -/
def Json.isObjLiteral : Json → Bool
  | .obj _ => true
  | _ => false

/-- Whether a JSON value is an array. -/
def Json.isArray : Json → Bool
  | .arr _ => true
  | _ => false

/-- C4: `verifySignature` is a pure function of `(secret, rawBody,
signature)` (it is a Lean function of exactly these and the HMAC oracle, so
determinism is definitional); an absent or empty signature yields `false`;
the correctly computed digest yields `true` (given the collaborator fact
that a base64 HMAC digest is never the empty string); any other signature
string — in particular one with a flipped byte — yields `false`; and a
changed `rawBody` yields `false` whenever its digest differs from the
original's, which is the collaborator's cryptographic guarantee for a
byte-flipped body. -/
theorem verifySignature_exact (hmacB64 : String → String → String)
    (secret rawBody : String) (hne : hmacB64 secret rawBody ≠ "") :
    verifySignature hmacB64 secret rawBody none = false ∧
    verifySignature hmacB64 secret rawBody (some "") = false ∧
    verifySignature hmacB64 secret rawBody (some (hmacB64 secret rawBody)) = true ∧
    (∀ sig : String, sig ≠ hmacB64 secret rawBody →
      verifySignature hmacB64 secret rawBody (some sig) = false) ∧
    (∀ rawBody' : String, hmacB64 secret rawBody' ≠ hmacB64 secret rawBody →
      verifySignature hmacB64 secret rawBody' (some (hmacB64 secret rawBody)) = false) := by
  refine ⟨rfl, by simp [verifySignature], ?_, ?_, ?_⟩
  · simp [verifySignature, hne]
  · intro sig hsig
    by_cases h0 : sig = ""
    · simp [verifySignature, h0]
    · by_cases hsz : (hmacB64 secret rawBody).utf8ByteSize = sig.utf8ByteSize
      · simp only [verifySignature, beq_iff_eq, if_neg h0, hsz, ne_eq,
          not_true_eq_false, if_false]
        rw [beq_eq_false_iff_ne]
        exact fun h => hsig h.symm
      · simp [verifySignature, h0, hsz]
  · intro rawBody' hb
    by_cases h0 : hmacB64 secret rawBody = ""
    · simp [verifySignature, h0]
    · by_cases hsz :
        (hmacB64 secret rawBody').utf8ByteSize = (hmacB64 secret rawBody).utf8ByteSize
      · simp only [verifySignature, beq_iff_eq, if_neg h0, hsz, ne_eq,
          not_true_eq_false, if_false]
        rw [beq_eq_false_iff_ne]
        exact hb
      · simp [verifySignature, h0, hsz]

/-- A concrete stand-in for the HMAC collaborator, used to instantiate
theorems at computable inputs. -/
def hmacDemo (secret body : String) : String := secret ++ ":" ++ body

/-- Witness for `verifySignature_exact` at concrete inputs. -/
theorem verifySignature_exact_witness :
    verifySignature hmacDemo "k" "body" (some (hmacDemo "k" "body")) = true ∧
    verifySignature hmacDemo "k" "body" (some "x") = false ∧
    verifySignature hmacDemo "k" "bodz" (some (hmacDemo "k" "body")) = false :=
  ⟨(verifySignature_exact hmacDemo "k" "body" (by decide)).2.2.1,
   (verifySignature_exact hmacDemo "k" "body" (by decide)).2.2.2.1 "x" (by decide),
   (verifySignature_exact hmacDemo "k" "body" (by decide)).2.2.2.2 "bodz" (by decide)⟩

/-- C5: when the signature header is absent or fails verification, the
gateway answers 401 before any event is processed: the store is returned
untouched and no collaborator call happens (an absent header always fails
verification, as the second conjunct records). -/
theorem gateway_unauthorized_no_processing (svc : Service)
    (hmacB64 : String → String → String) (parse : String → Option WebhookBody)
    (now : Int) (st : Store) (rawBody : String) (signature : Option String)
    (hsig : verifySignature hmacB64 svc.secret rawBody signature = false) :
    gatewayPost svc hmacB64 parse now st rawBody signature =
      (GatewayResult.unauthorized, st, []) ∧
    verifySignature hmacB64 svc.secret rawBody none = false := by
  constructor
  · unfold gatewayPost
    rw [hsig]
    rfl
  · rfl

/-- Trivial collaborator oracles for concrete instantiations. -/
def oracleEnv : ServiceEnv :=
  ⟨fun _ => Except.ok "", fun _ => Except.ok ("", []), fun _ _ => Except.ok (),
   fun _ => "1970-01-01T00:00:00.000Z"⟩

/-- A service with the default configuration (`historyLimit 120`,
`ttlMinutes 1440`, `maxConversations 500`, `summaryLimit 80`). -/
def svcDemo : Service :=
  ⟨"secret", mkServiceStoreConfig 120 1440 500, 80, oracleEnv⟩

/-- Witness for `gateway_unauthorized_no_processing`: a request with no
signature header is rejected and the (empty) store stays empty. -/
theorem gateway_unauthorized_witness :
    gatewayPost svcDemo hmacDemo (fun _ => none) 0 [] "{}" none =
      (GatewayResult.unauthorized, [], []) :=
  (gateway_unauthorized_no_processing svcDemo hmacDemo (fun _ => none) 0 [] "{}"
    none rfl).1

/-- C9 counterexample: a JSON array is not a JSON object, yet
`handleEventPlanner` does not reply with the fallback for it —
`typeof [] === "object"` in JS, so an array passes the guard and is
formatted with every field defaulted. -/
theorem planner_array_cex :
    Json.isObjLiteral (Json.arr []) = false ∧
    plannerIsFallback (plannerOutcome (Json.arr [])) = false :=
  ⟨rfl, rfl⟩

/-- C9 (amended): the fallback reply happens exactly when the parsed output
is neither a JSON object nor a JSON array (parse failures arrive as `null`);
otherwise a single formatted plan reply is produced and every absent-or-null
field takes its documented neutral default. -/
theorem planner_tolerant_defaults (j : Json) :
    (plannerIsFallback (plannerOutcome j) = true ↔
      (Json.isObjLiteral j = false ∧ Json.isArray j = false)) ∧
    (∀ p : PlanFields, plannerOutcome j = PlannerOutcome.plan p →
      ((getField j "title" = none ∨ getField j "title" = some Json.null) →
        p.title = Json.str "นัดหมาย") ∧
      ((getField j "datetime" = none ∨ getField j "datetime" = some Json.null) →
        p.datetime = Json.null) ∧
      ((getField j "durationMinutes" = none ∨
          getField j "durationMinutes" = some Json.null) →
        p.durationMinutes = Json.num 90) ∧
      ((getField j "location" = none ∨ getField j "location" = some Json.null) →
        p.location = Json.null) ∧
      ((getField j "participants" = none ∨
          getField j "participants" = some Json.null) →
        p.participants = Json.arr []) ∧
      ((getField j "openQuestions" = none ∨
          getField j "openQuestions" = some Json.null) →
        p.openQuestions = Json.arr []) ∧
      ((getField j "pollOptions" = none ∨
          getField j "pollOptions" = some Json.null) →
        p.pollOptions = Json.arr [])) := by
  constructor
  · cases j <;>
      simp [plannerOutcome, plannerIsFallback, Json.isObjLiteral, Json.isArray,
        jsTruthy, typeofIsObject]
  · intro p hp
    cases j with
    | null => simp [plannerOutcome, jsTruthy] at hp
    | bool b =>
      cases b <;> simp [plannerOutcome, jsTruthy, typeofIsObject] at hp
    | num n => simp [plannerOutcome, jsTruthy, typeofIsObject] at hp
    | str s => simp [plannerOutcome, jsTruthy, typeofIsObject] at hp
    | arr elems =>
      simp only [plannerOutcome, jsTruthy, typeofIsObject, Bool.not_true,
        Bool.or_self, Bool.false_or, if_false] at hp
      cases hp
      refine ⟨?_, ?_, ?_, ?_, ?_, ?_, ?_⟩ <;> intro h <;> rfl
    | obj fields =>
      simp only [plannerOutcome, jsTruthy, typeofIsObject, Bool.not_true,
        Bool.or_self, Bool.false_or, if_false] at hp
      cases hp
      refine ⟨?_, ?_, ?_, ?_, ?_, ?_, ?_⟩ <;>
        (intro h; rcases h with h | h <;> simp [fieldOr, h])

/-- The all-defaults plan record. -/
def planDefaults : PlanFields :=
  ⟨Json.str "นัดหมาย", Json.null, Json.num 90, Json.null, Json.arr [],
   Json.arr [], Json.arr []⟩

/-- Witness for `planner_tolerant_defaults`: a string output falls back,
and an empty object yields the fully defaulted plan. -/
theorem planner_tolerant_defaults_witness :
    plannerIsFallback (plannerOutcome (Json.str "x")) = true ∧
    planDefaults.title = Json.str "นัดหมาย" :=
  ⟨(planner_tolerant_defaults (Json.str "x")).1.mpr ⟨rfl, rfl⟩,
   ((planner_tolerant_defaults (Json.obj [])).2 planDefaults rfl).1 (Or.inl rfl)⟩

/-- `listTruncFront` computed as a single `drop`. -/
theorem listTruncFront_eq_drop (n : Nat) (xs : List MessageEntry) :
    listTruncFront n xs = xs.drop (xs.length - n) := by
  unfold listTruncFront
  by_cases h : xs.length > n
  · rw [if_pos h]
  · rw [if_neg h]
    have hz : xs.length - n = 0 := by omega
    rw [hz, List.drop_zero]

/-- The code's front-truncation agrees with the specification's "most
recent `n`, original order". -/
theorem listTruncFront_eq_spec (n : Nat) (xs : List MessageEntry) :
    listTruncFront n xs = specMostRecent n xs := by
  unfold specMostRecent
  rw [List.take_reverse, List.reverse_reverse, listTruncFront_eq_drop]

/-- Truncating, appending, and truncating again equals truncating once at
the end. -/
theorem trunc_trunc_append (n : Nat) (xs ys : List MessageEntry) :
    listTruncFront n (listTruncFront n xs ++ ys) = listTruncFront n (xs ++ ys) := by
  rw [listTruncFront_eq_drop, listTruncFront_eq_drop, listTruncFront_eq_drop,
    List.drop_append_eq_append_drop, List.drop_append_eq_append_drop,
    List.drop_drop, List.length_append, List.length_append, List.length_drop]
  congr 1
  · congr 1
    omega
  · congr 1
    omega

/-- Folding truncate-append over a list equals a single final truncation. -/
theorem foldTrunc_eq (n : Nat) (es : List MessageEntry) :
    ∀ xs : List MessageEntry,
      es.foldl (fun acc e => listTruncFront n (acc ++ [e])) (listTruncFront n xs) =
        listTruncFront n (xs ++ es) := by
  induction es with
  | nil => intro xs; simp
  | cons e es ih =>
    intro xs
    simp only [List.foldl_cons]
    rw [trunc_trunc_append, ih (xs ++ [e]), List.append_assoc, List.singleton_append]

theorem cleanup_unbounded (limit : Nat) (now : Int) (st : Store) :
    cleanup ⟨limit, 0, 0⟩ now st = st := by
  simp [cleanup]

/-- Looking up the key just re-inserted after an erase finds exactly the
new bucket. -/
theorem storeLookup_erase_append_self (id : String) (st : Store)
    (b : ConversationBucket) :
    storeLookup id (storeErase id st ++ [(id, b)]) = some b := by
  induction st with
  | nil => simp [storeLookup, storeErase, List.find?]
  | cons kv rest ih =>
    by_cases h : kv.1 = id
    · simpa [storeErase, storeLookup, h] using ih
    · simpa [storeErase, storeLookup, List.find?, h] using ih

/-- `find?` commutes with a `filter` whose predicate is implied by the
search predicate. -/
theorem find?_filter_of_imp {α} (l : List α) (p q : α → Bool)
    (himp : ∀ a, p a = true → q a = true) :
    (l.filter q).find? p = l.find? p := by
  induction l with
  | nil => rfl
  | cons a l ih =>
    rw [List.filter_cons]
    by_cases hq : q a = true
    · rw [if_pos hq]
      by_cases hp : p a = true
      · rw [List.find?_cons_of_pos _ hp, List.find?_cons_of_pos _ hp]
      · rw [List.find?_cons_of_neg _ hp, List.find?_cons_of_neg _ hp, ih]
    · rw [if_neg hq]
      have hp : ¬p a = true := fun hpa => hq (himp a hpa)
      rw [List.find?_cons_of_neg _ hp, ih]

/-- Erasing and re-inserting a different key does not change a lookup. -/
theorem storeLookup_erase_append_other {id id' : String} (h : id ≠ id')
    (st : Store) (b : ConversationBucket) :
    storeLookup id (storeErase id' st ++ [(id', b)]) = storeLookup id st := by
  have hb : ((id' : String) == id) = false :=
    beq_eq_false_iff_ne.mpr (fun hh => h hh.symm)
  unfold storeLookup storeErase
  rw [List.find?_append]
  have h2 : List.find? (fun kv => kv.1 == id) [(id', b)] = none := by
    simp [List.find?, hb]
  rw [h2, Option.or_none]
  congr 1
  exact find?_filter_of_imp st _ _ (fun a hpa => by
    have ha : a.1 = id := beq_iff_eq.mp hpa
    rw [Bool.not_eq_true', beq_eq_false_iff_ne, ha]
    exact h)

theorem bucketItems_storeAdd_self (limit : Nat) (id : String) (e : MessageEntry)
    (now : Int) (st : Store) :
    bucketItems id (storeAdd ⟨limit, 0, 0⟩ id e now st) =
      listTruncFront limit (bucketItems id st ++ [e]) := by
  unfold storeAdd
  rw [cleanup_unbounded]
  unfold bucketItems
  rw [storeLookup_erase_append_self]
  cases h : storeLookup id st <;> simp [h]

theorem bucketItems_storeAdd_other (limit : Nat) {id id' : String} (h : id ≠ id')
    (e : MessageEntry) (now : Int) (st : Store) :
    bucketItems id (storeAdd ⟨limit, 0, 0⟩ id' e now st) = bucketItems id st := by
  unfold storeAdd
  rw [cleanup_unbounded]
  unfold bucketItems
  rw [storeLookup_erase_append_other h]

theorem bucketItems_storeGetRecent (limit : Nat) (id id' : String) (n : Nat)
    (now : Int) (st : Store) :
    bucketItems id ((storeGetRecent ⟨limit, 0, 0⟩ id' n now st).2) =
      bucketItems id st := by
  unfold storeGetRecent
  rw [cleanup_unbounded]
  cases hl : storeLookup id' st with
  | none => simp [hl]
  | some b =>
    simp only [hl]
    by_cases hid : id = id'
    · subst hid
      unfold bucketItems
      rw [storeLookup_erase_append_self, hl]
    · unfold bucketItems
      rw [storeLookup_erase_append_other hid]

theorem runOps_cons (cfg : StoreConfig) (op : StoreOp) (rest : List StoreOp)
    (st : Store) :
    runOps cfg (op :: rest) st = runOps cfg rest (applyOp cfg st op) := rfl

theorem appendsTo_add_self (id : String) (now : Int) (e : MessageEntry)
    (rest : List StoreOp) :
    appendsTo id (.add now id e :: rest) = e :: appendsTo id rest := by
  simp [appendsTo]

theorem appendsTo_add_ne {id id' : String} (h : id' ≠ id) (now : Int)
    (e : MessageEntry) (rest : List StoreOp) :
    appendsTo id (.add now id' e :: rest) = appendsTo id rest := by
  simp [appendsTo, h]

theorem appendsTo_get_cons (id : String) (now : Int) (id' : String) (n : Nat)
    (rest : List StoreOp) :
    appendsTo id (.get now id' n :: rest) = appendsTo id rest := by
  simp [appendsTo]

theorem bucketItems_runOps (limit : Nat) (id : String) :
    ∀ (ops : List StoreOp) (st : Store),
      bucketItems id (runOps ⟨limit, 0, 0⟩ ops st) =
        (appendsTo id ops).foldl (fun acc e => listTruncFront limit (acc ++ [e]))
          (bucketItems id st) := by
  intro ops
  induction ops with
  | nil => intro st; rfl
  | cons op rest ih =>
    intro st
    cases op with
    | add now id' e =>
      by_cases hid : id' = id
      · subst hid
        rw [runOps_cons, ih, appendsTo_add_self, List.foldl_cons]
        simp only [applyOp]
        rw [bucketItems_storeAdd_self]
      · have hne : id ≠ id' := fun hh => hid hh.symm
        rw [runOps_cons, ih, appendsTo_add_ne hid]
        simp only [applyOp]
        rw [bucketItems_storeAdd_other limit hne]
    | get now id' n =>
      rw [runOps_cons, ih, appendsTo_get_cons]
      simp only [applyOp]
      rw [bucketItems_storeGetRecent]

theorem evictOldest_mem (m : Nat) :
    ∀ (st : Store) (kv : String × ConversationBucket),
      kv ∈ evictOldest m st → kv ∈ st := by
  intro st
  induction st with
  | nil => intro kv h; exact h
  | cons a rest ih =>
    intro kv h
    unfold evictOldest at h
    by_cases h1 : (a :: rest).length ≤ m
    · rwa [if_pos h1] at h
    · rw [if_neg h1] at h
      by_cases h2 : a.1 == ""
      · rwa [if_pos h2] at h
      · rw [if_neg h2] at h
        exact List.mem_cons_of_mem a (ih kv h)

theorem cleanup_mem (cfg : StoreConfig) (now : Int) (st : Store)
    (kv : String × ConversationBucket) (h : kv ∈ cleanup cfg now st) : kv ∈ st := by
  unfold cleanup at h
  by_cases hm : cfg.maxConversations > 0
  · rw [if_pos hm] at h
    have h2 := evictOldest_mem cfg.maxConversations _ kv h
    by_cases ht : cfg.ttlMs > 0
    · rw [if_pos ht] at h2
      exact List.mem_of_mem_filter h2
    · rwa [if_neg ht] at h2
  · rw [if_neg hm] at h
    by_cases ht : cfg.ttlMs > 0
    · rw [if_pos ht] at h
      exact List.mem_of_mem_filter h
    · rwa [if_neg ht] at h

theorem listTruncFront_length_le (n : Nat) (xs : List MessageEntry) :
    (listTruncFront n xs).length ≤ max n xs.length := by
  rw [listTruncFront_eq_drop, List.length_drop]
  omega

theorem listTruncFront_length_le' (n : Nat) (xs : List MessageEntry)
    (h : 0 < xs.length) :
    xs.length ≤ n + 1 → (listTruncFront n xs).length ≤ n := by
  intro hle
  rw [listTruncFront_eq_drop, List.length_drop]
  omega

theorem storeLookup_mem {id : String} {st : Store} {b : ConversationBucket}
    (h : storeLookup id st = some b) : (id, b) ∈ st := by
  unfold storeLookup at h
  cases hf : st.find? (fun kv => kv.1 == id) with
  | none => rw [hf] at h; exact absurd h (by simp)
  | some kv =>
    rw [hf] at h
    have hm := List.mem_of_find?_eq_some hf
    have hp := List.find?_some hf
    have h1 : kv.1 = id := by simpa using hp
    have h2 : kv.2 = b := by simpa using h
    have : kv = (id, b) := Prod.ext h1 h2
    rwa [this] at hm

/-- Every bucket in a store reachable from the empty store has at most
`limit` items, for any configuration. -/
theorem items_bound_run (cfg : StoreConfig) :
    ∀ (ops : List StoreOp) (st : Store),
      (∀ kv ∈ st, (kv.2 : ConversationBucket).items.length ≤ cfg.limit) →
      ∀ kv ∈ runOps cfg ops st, (kv.2 : ConversationBucket).items.length ≤ cfg.limit := by
  intro ops
  induction ops with
  | nil => intro st h; exact h
  | cons op rest ih =>
    intro st h
    rw [runOps_cons]
    refine ih (applyOp cfg st op) ?_
    intro kv hkv
    cases op with
    | add now id e =>
      simp only [applyOp] at hkv
      unfold storeAdd at hkv
      rcases List.mem_append.mp hkv with hl | hr
      · exact h kv (cleanup_mem cfg now st kv (List.mem_of_mem_filter hl))
      · have : kv = (id, ⟨listTruncFront cfg.limit
            (((storeLookup id (cleanup cfg now st)).getD ⟨[], now⟩).items ++ [e]),
            now⟩) := by
          simpa using hr
        subst this
        show (listTruncFront cfg.limit _).length ≤ cfg.limit
        cases hb : storeLookup id (cleanup cfg now st) with
        | none =>
          simp only [Option.getD_none, List.nil_append, listTruncFront_eq_drop,
            List.length_drop, List.length_cons, List.length_nil]
          omega
        | some b =>
          have hbm := h (id, b) (cleanup_mem cfg now st (id, b) (storeLookup_mem hb))
          simp only [Option.getD_some, listTruncFront_eq_drop, List.length_drop,
            List.length_append, List.length_cons, List.length_nil]
          omega
    | get now id n =>
      simp only [applyOp] at hkv
      unfold storeGetRecent at hkv
      cases hb : storeLookup id (cleanup cfg now st) with
      | none =>
        simp only [hb] at hkv
        exact h kv (cleanup_mem cfg now st kv hkv)
      | some b =>
        simp only [hb] at hkv
        rcases List.mem_append.mp hkv with hl | hr
        · exact h kv (cleanup_mem cfg now st kv (List.mem_of_mem_filter hl))
        · have hbm := h (id, b) (cleanup_mem cfg now st (id, b) (storeLookup_mem hb))
          have : kv = (id, ⟨b.items, now⟩) := by simpa using hr
          subst this
          exact hbm

/-- C2: for every sequence of operations on an unbounded store (TTL and
capacity eviction disabled — when enabled they can remove a whole bucket,
which is the subject of the TTL and capacity laws), the bucket of any
conversation holds exactly the most recently appended `historyLimit`
entries in arrival order; and for every configuration, every bucket
reachable from the empty store has at most `historyLimit` items after any
operation. -/
theorem history_fifo_truncation (limit : Nat) (id : String) (ops : List StoreOp) :
    bucketItems id (runOps ⟨limit, 0, 0⟩ ops []) =
      specMostRecent limit (appendsTo id ops) ∧
    (∀ (cfg : StoreConfig) (ops' : List StoreOp)
       (kv : String × ConversationBucket),
      kv ∈ runOps cfg ops' [] → (kv.2 : ConversationBucket).items.length ≤ cfg.limit) := by
  constructor
  · have h := bucketItems_runOps limit id ops []
    have hnil : bucketItems id ([] : Store) = listTruncFront limit [] := by
      simp [bucketItems, storeLookup, listTruncFront]
    rw [hnil, foldTrunc_eq, List.nil_append, listTruncFront_eq_spec] at h
    exact h
  · intro cfg ops' kv hkv
    exact items_bound_run cfg ops' [] (by intro kv h; cases h) kv hkv

/-- The appends of end-to-end scenario B (`"a"`, `"b"`, `"c"` to one
conversation with `historyLimit = 2`). -/
def opsScenarioB : List StoreOp :=
  [.add 0 "c" ⟨none, "a", 0⟩, .add 1 "c" ⟨none, "b", 1⟩, .add 2 "c" ⟨none, "c", 2⟩]

/-- Witness for `history_fifo_truncation` on scenario B. -/
theorem history_fifo_truncation_witness :
    bucketItems "c" (runOps ⟨2, 0, 0⟩ opsScenarioB []) =
      specMostRecent 2 (appendsTo "c" opsScenarioB) ∧
    (("c", ⟨[⟨none, "b", 1⟩, ⟨none, "c", 2⟩], 2⟩) :
        String × ConversationBucket).2.items.length ≤ 2 :=
  ⟨(history_fifo_truncation 2 "c" opsScenarioB).1,
   (history_fifo_truncation 2 "c" opsScenarioB).2 ⟨2, 0, 0⟩ opsScenarioB _ (by decide)⟩

theorem storeLookup_none_iff (id : String) (st : Store) :
    storeLookup id st = none ↔ ∀ kv ∈ st, kv.1 ≠ id := by
  unfold storeLookup
  rw [Option.map_eq_none', List.find?_eq_none]
  constructor
  · intro h kv hkv
    have := h kv hkv
    simpa using this
  · intro h kv hkv
    simpa using h kv hkv

/-- With duplicate-free keys, any entry sharing the looked-up key carries
the looked-up bucket. -/
theorem storeLookup_unique :
    ∀ (st : Store), (st.map Prod.fst).Nodup →
      ∀ {id : String} {b b' : ConversationBucket},
        storeLookup id st = some b → (id, b') ∈ st → b' = b := by
  intro st
  induction st with
  | nil => intro _ id b b' _ hmem; cases hmem
  | cons kv rest ih =>
    intro hnd id b b' hb hmem
    rw [List.map_cons, List.nodup_cons] at hnd
    by_cases hk : kv.1 = id
    · have hbeq : (kv.1 == id) = true := beq_iff_eq.mpr hk
      unfold storeLookup at hb
      simp only [List.find?_cons, hbeq, Option.map_some'] at hb
      have hkb : kv.2 = b := by simpa using hb
      rcases List.mem_cons.mp hmem with hh | ht
      · rw [← hh] at hkb
        exact hkb
      · exfalso
        have : id ∈ rest.map Prod.fst := by
          exact List.mem_map.mpr ⟨(id, b'), ht, rfl⟩
        rw [← hk] at this
        exact hnd.1 this
    · have hbeq : (kv.1 == id) = false := beq_eq_false_iff_ne.mpr hk
      unfold storeLookup at hb
      simp only [List.find?_cons, hbeq] at hb
      rcases List.mem_cons.mp hmem with hh | ht
      · exact absurd (congrArg Prod.fst hh.symm) hk
      · exact ih hnd.2 hb ht

/-- Membership in `cleanup` implies membership in the TTL-filtered list
(when the TTL is enabled). -/
theorem cleanup_mem_filter {cfg : StoreConfig} (ht : 0 < cfg.ttlMs)
    (now : Int) (st : Store) (kv : String × ConversationBucket)
    (h : kv ∈ cleanup cfg now st) :
    kv ∈ st.filter (fun kv => decide (now - kv.2.lastSeen ≤ cfg.ttlMs)) := by
  unfold cleanup at h
  rw [if_pos ht] at h
  by_cases hm : cfg.maxConversations > 0
  · rw [if_pos hm] at h
    exact evictOldest_mem cfg.maxConversations _ kv h
  · rwa [if_neg hm] at h

/-- After `cleanup` at time `now`, every remaining bucket is fresh. -/
theorem cleanup_fresh {cfg : StoreConfig} (ht : 0 < cfg.ttlMs)
    (now : Int) (st : Store) :
    ∀ kv ∈ cleanup cfg now st,
      now - (kv.2 : ConversationBucket).lastSeen ≤ cfg.ttlMs := by
  intro kv h
  have := List.mem_filter.mp (cleanup_mem_filter ht now st kv h)
  simpa using this.2

/-- `cleanup` removes a stale bucket entirely. -/
theorem storeLookup_cleanup_stale {cfg : StoreConfig} (ht : 0 < cfg.ttlMs)
    {st : Store} (hnd : (st.map Prod.fst).Nodup) {id : String}
    {b : ConversationBucket} (hb : storeLookup id st = some b) {now : Int}
    (hstale : cfg.ttlMs < now - b.lastSeen) :
    storeLookup id (cleanup cfg now st) = none := by
  rw [storeLookup_none_iff]
  intro kv hkv hk
  have hf := List.mem_filter.mp (cleanup_mem_filter ht now st kv hkv)
  have hmem : (id, kv.2) ∈ st := by
    rw [← hk]
    exact hf.1
  have : kv.2 = b := storeLookup_unique st hnd hb hmem
  have hfresh : now - kv.2.lastSeen ≤ cfg.ttlMs := by simpa using hf.2
  rw [this] at hfresh
  omega

theorem mkServiceStoreConfig_ttl (limit : Nat) {t : Int} (ht : 0 < t)
    (maxC : Nat) : (mkServiceStoreConfig limit t maxC).ttlMs = t * 60000 := by
  simp [mkServiceStoreConfig, ht]

/-- C3: with `ttlMinutes = t > 0`, a bucket whose `lastSeen` lies more than
`t` minutes before the current time is removed by the very next `add` or
`getRecent`, whatever conversation that operation targets; an `add` aimed
at the stale conversation itself starts a brand-new bucket holding only the
new entry.  Moreover no bucket of the resulting store is stale. -/
theorem ttl_lazy_expiry (limit maxC : Nat) (t : Int) (ht : 0 < t) (st : Store)
    (hnd : (st.map Prod.fst).Nodup) (id : String) (b : ConversationBucket)
    (hb : storeLookup id st = some b) (now : Int)
    (hstale : t * 60000 < now - b.lastSeen) (id' : String) (e : MessageEntry)
    (n : Nat) :
    storeLookup id
        ((storeGetRecent (mkServiceStoreConfig limit t maxC) id' n now st).2) =
      none ∧
    storeLookup id (storeAdd (mkServiceStoreConfig limit t maxC) id' e now st) =
      (if id' = id then some ⟨listTruncFront limit [e], now⟩ else none) ∧
    (∀ kv ∈ storeAdd (mkServiceStoreConfig limit t maxC) id' e now st,
      now - (kv.2 : ConversationBucket).lastSeen ≤ t * 60000) ∧
    (∀ kv ∈ (storeGetRecent (mkServiceStoreConfig limit t maxC) id' n now st).2,
      now - (kv.2 : ConversationBucket).lastSeen ≤ t * 60000) := by
  have htt : (0 : Int) < (mkServiceStoreConfig limit t maxC).ttlMs := by
    rw [mkServiceStoreConfig_ttl limit ht maxC]
    positivity
  have hstale' : (mkServiceStoreConfig limit t maxC).ttlMs < now - b.lastSeen := by
    rwa [mkServiceStoreConfig_ttl limit ht maxC]
  have hnone : storeLookup id
      (cleanup (mkServiceStoreConfig limit t maxC) now st) = none :=
    storeLookup_cleanup_stale htt hnd hb hstale'
  have hpos : (0 : Int) ≤ t * 60000 := by positivity
  refine ⟨?_, ?_, ?_, ?_⟩
  · unfold storeGetRecent
    cases hl : storeLookup id'
        (cleanup (mkServiceStoreConfig limit t maxC) now st) with
    | none => simpa [hl] using hnone
    | some b2 =>
      simp only [hl]
      by_cases hid : id = id'
      · rw [hid] at hnone
        rw [hnone] at hl
        cases hl
      · rw [storeLookup_erase_append_other hid]
        exact hnone
  · unfold storeAdd
    by_cases hid : id' = id
    · subst hid
      rw [if_pos rfl, storeLookup_erase_append_self, hnone]
      simp [mkServiceStoreConfig]
    · have hne : id ≠ id' := fun hh => hid hh.symm
      rw [if_neg hid, storeLookup_erase_append_other hne]
      exact hnone
  · intro kv hkv
    unfold storeAdd at hkv
    rcases List.mem_append.mp hkv with hl | hr
    · have := cleanup_fresh htt now st kv (List.mem_of_mem_filter hl)
      rwa [mkServiceStoreConfig_ttl limit ht maxC] at this
    · have : kv = (id', ⟨listTruncFront limit
          (((storeLookup id' (cleanup (mkServiceStoreConfig limit t maxC) now st)).getD
            ⟨[], now⟩).items ++ [e]), now⟩) := by
        simpa using hr
      rw [this]
      simpa using hpos
  · intro kv hkv
    unfold storeGetRecent at hkv
    cases hl : storeLookup id'
        (cleanup (mkServiceStoreConfig limit t maxC) now st) with
    | none =>
      simp only [hl] at hkv
      have := cleanup_fresh htt now st kv hkv
      rwa [mkServiceStoreConfig_ttl limit ht maxC] at this
    | some b2 =>
      simp only [hl] at hkv
      rcases List.mem_append.mp hkv with hl2 | hr
      · have := cleanup_fresh htt now st kv (List.mem_of_mem_filter hl2)
        rwa [mkServiceStoreConfig_ttl limit ht maxC] at this
      · have : kv = (id', ⟨b2.items, now⟩) := by simpa using hr
        rw [this]
        simpa using hpos

/-- A store holding one bucket last seen at time 0. -/
def stStale : Store := [("user:u1", ⟨[⟨none, "m", 0⟩], 0⟩)]

/-- Witness for `ttl_lazy_expiry`: with a 1-minute TTL, a bucket last seen
at 0 is gone after an access at 60001 ms that targets another conversation. -/
theorem ttl_lazy_expiry_witness :
    storeLookup "user:u1"
        ((storeGetRecent (mkServiceStoreConfig 5 1 0) "user:u2" 10 60001
          stStale).2) = none ∧
    storeLookup "user:u1"
        (storeAdd (mkServiceStoreConfig 5 1 0) "user:u2" ⟨none, "x", 60001⟩ 60001
          stStale) =
      (if "user:u2" = "user:u1" then
        some ⟨listTruncFront 5 [⟨none, "x", 60001⟩], 60001⟩ else none) :=
  ⟨(ttl_lazy_expiry 5 0 1 (by decide) stStale (by decide) "user:u1"
      ⟨[⟨none, "m", 0⟩], 0⟩ (by decide) 60001 (by decide) "user:u2"
      ⟨none, "x", 60001⟩ 10).1,
   (ttl_lazy_expiry 5 0 1 (by decide) stStale (by decide) "user:u1"
      ⟨[⟨none, "m", 0⟩], 0⟩ (by decide) 60001 (by decide) "user:u2"
      ⟨none, "x", 60001⟩ 10).2.1⟩

/-- A text-message event carrying no reply token. -/
def eventNoToken : LineWebhookEvent :=
  ⟨"message", some 5, none, ⟨"user", some "u1", none, none⟩,
   some ⟨none, "text", some "hi"⟩⟩

/-- C7 counterexample: a text message event without a reply target is NOT a
complete no-op — `store.add` runs before the reply-token check, so the
message is recorded in the conversation history. -/
theorem filter_noop_cex :
    (handleEvent svcDemo 0 [] eventNoToken).1 =
      [("user:u1", ⟨[⟨some "u1", "hi", 5⟩], 0⟩)] ∧
    (handleEvent svcDemo 0 [] eventNoToken).1 ≠ ([] : Store) := by
  constructor <;> decide

/-- C7 (amended): a non-message event, a missing message, or a non-text
message is a complete no-op (store untouched, no effects, no error); a text
message without a reply target is recorded in the store but produces no
backend call and no reply. -/
theorem filter_amended (svc : Service) (now : Int) (st : Store)
    (e : LineWebhookEvent) :
    (e.type ≠ "message" → handleEvent svc now st e = (st, [], none)) ∧
    (e.message = none → handleEvent svc now st e = (st, [], none)) ∧
    (∀ m : LineMessage, e.message = some m → m.type ≠ "text" →
      handleEvent svc now st e = (st, [], none)) ∧
    (∀ m : LineMessage, e.message = some m → e.type = "message" →
      m.type = "text" → strTruthy e.replyToken = false →
      handleEvent svc now st e =
        (storeAdd svc.cfg (buildConversationId e)
          ⟨e.source.userId, jsTrim (m.text.getD ""), e.timestamp.getD now⟩ now st,
         [], none)) := by
  refine ⟨?_, ?_, ?_, ?_⟩
  · intro h
    unfold handleEvent
    rw [if_pos h]
  · intro h
    unfold handleEvent
    by_cases ht : e.type ≠ "message"
    · rw [if_pos ht]
    · rw [if_neg ht]
      simp only [h]
  · intro m hm hmt
    unfold handleEvent
    by_cases ht : e.type ≠ "message"
    · rw [if_pos ht]
    · rw [if_neg ht]
      simp only [hm]
      rw [if_pos hmt]
  · intro m hm htype hmt htok
    unfold handleEvent
    rw [if_neg (by simp [htype])]
    simp only [hm]
    rw [if_neg (by simp [hmt])]
    simp only [htok, Bool.not_false, if_true]

/-- Witness for `filter_amended`: a follow event is a no-op; a tokenless
text message is recorded but unanswered. -/
theorem filter_amended_witness :
    handleEvent svcDemo 0 []
        ⟨"follow", some 1, none, ⟨"user", some "u1", none, none⟩, none⟩ =
      ([], [], none) ∧
    handleEvent svcDemo 0 [] eventNoToken =
      ([("user:u1", ⟨[⟨some "u1", "hi", 5⟩], 0⟩)], [], none) :=
  ⟨(filter_amended svcDemo 0 [] _).1 (by decide),
   (((filter_amended svcDemo 0 [] eventNoToken).2.2.2 ⟨none, "text", some "hi"⟩
      rfl rfl rfl rfl).trans (by decide))⟩

/-- A successful case-insensitive anchored prefix match pins down each
(lowered) character of the text at the pattern's positions. -/
theorem startsWithCI_char {pat t : List Char} (h : startsWithCI pat t = true)
    (i : Nat) (c : Char) (hc : pat[i]? = some c) :
    (t[i]?).map Char.toLower = some c := by
  unfold startsWithCI at h
  rcases Bool.and_eq_true _ _ |>.mp h with ⟨heq, _⟩
  have heq' : (t.take pat.length).map Char.toLower = pat := beq_iff_eq.mp heq
  have hi : i < pat.length := (List.getElem?_eq_some.mp hc).1
  calc (t[i]?).map Char.toLower
      = ((t.take pat.length)[i]?).map Char.toLower := by
        rw [List.getElem?_take_of_lt hi]
    _ = ((t.take pat.length).map Char.toLower)[i]? := by
        rw [List.getElem?_map]
    _ = pat[i]? := by rw [heq']
    _ = some c := hc

/-- The `/research` pattern excludes the `/summary`, `/help` and
`/fortune|/duang|/ดูดวง` patterns (their second characters differ). -/
theorem matchResearch_not_others {t : String} (hr : matchResearch t = true) :
    matchSummary t = false ∧ matchHelp t = false ∧ matchFortune t = false := by
  have hA : startsWithCI "/research".data t.data = true :=
    (Bool.and_eq_true _ _ |>.mp hr).1
  have h2 : (t.data[1]?).map Char.toLower = some 'r' :=
    startsWithCI_char hA 1 'r' rfl
  refine ⟨?_, ?_, ?_⟩
  · cases hms : matchSummary t with
    | false => rfl
    | true =>
      exfalso
      have hA2 : startsWithCI "/summary".data t.data = true :=
        (Bool.and_eq_true _ _ |>.mp hms).1
      have h2' := startsWithCI_char hA2 1 's' rfl
      rw [h2] at h2'
      simp at h2'
  · cases hms : matchHelp t with
    | false => rfl
    | true =>
      exfalso
      have hA2 : startsWithCI "/help".data t.data = true :=
        (Bool.and_eq_true _ _ |>.mp hms).1
      have h2' := startsWithCI_char hA2 1 'h' rfl
      rw [h2] at h2'
      simp at h2'
  · cases hms : matchFortune t with
    | false => rfl
    | true =>
      exfalso
      unfold matchFortune at hms
      rcases Bool.or_eq_true _ _ |>.mp hms with hor | hc3
      · rcases Bool.or_eq_true _ _ |>.mp hor with hc1 | hc2
        · have hA2 : startsWithCI "/fortune".data t.data = true :=
            (Bool.and_eq_true _ _ |>.mp hc1).1
          have h2' := startsWithCI_char hA2 1 'f' rfl
          rw [h2] at h2'
          simp at h2'
        · have hA2 : startsWithCI "/duang".data t.data = true :=
            (Bool.and_eq_true _ _ |>.mp hc2).1
          have h2' := startsWithCI_char hA2 1 'd' rfl
          rw [h2] at h2'
          simp at h2'
      · have hA2 : startsWithCI "/ดูดวง".data t.data = true :=
          (Bool.and_eq_true _ _ |>.mp hc3).1
        have h2' := startsWithCI_char hA2 1 'ด' rfl
        rw [h2] at h2'
        simp at h2'

/-- C10: a text message whose trimmed text matches `/^\/research\b/i` but
whose query is empty after stripping the command and whitespace gets the
fixed usage-hint reply, no backend call of any kind — and the message has
still been recorded in the conversation history by the preceding
`store.add`. -/
theorem research_usage_hint (svc : Service) (now : Int) (st : Store)
    (e : LineWebhookEvent) (m : LineMessage)
    (hm : e.message = some m) (htype : e.type = "message") (hmt : m.type = "text")
    (htok : strTruthy e.replyToken = true)
    (hmatch : matchResearch (jsTrim (m.text.getD "")) = true)
    (hempty : trimCommand (jsTrim (m.text.getD "")) "research".data = "") :
    handleEvent svc now st e =
      (storeAdd svc.cfg (buildConversationId e)
        ⟨e.source.userId, jsTrim (m.text.getD ""), e.timestamp.getD now⟩ now st,
       [Effect.reply (e.replyToken.getD "") researchUsage],
       sendOutcome svc (e.replyToken.getD "") researchUsage) := by
  obtain ⟨hs, hh, hf⟩ := matchResearch_not_others hmatch
  unfold handleEvent
  rw [if_neg (by simp [htype])]
  simp only [hm]
  rw [if_neg (by simp [hmt])]
  simp only [htok, Bool.not_true, if_false, hs, hh, hf, hmatch, if_true]
  unfold handleResearch
  rw [hempty]
  simp

/-- An event whose text is exactly `/research`, with a reply token. -/
def eventResearchEmpty : LineWebhookEvent :=
  ⟨"message", some 9, some "tok1", ⟨"user", some "u1", none, none⟩,
   some ⟨none, "text", some "/research"⟩⟩

/-- Witness for `research_usage_hint`. -/
theorem research_usage_hint_witness :
    handleEvent svcDemo 0 [] eventResearchEmpty =
      ([("user:u1", ⟨[⟨some "u1", "/research", 9⟩], 0⟩)],
       [Effect.reply "tok1" researchUsage], none) :=
  ((research_usage_hint svcDemo 0 [] eventResearchEmpty
      ⟨none, "text", some "/research"⟩ rfl rfl rfl rfl (by decide)
      (by decide)).trans (by decide))

/-- `handleWebhook` over a concatenation processes the parts in sequence;
because every per-event error is caught, no prefix can cut processing
short. -/
theorem handleWebhook_append (svc : Service) (now : Int) :
    ∀ (xs ys : List LineWebhookEvent) (st : Store),
      handleWebhook svc now st (xs ++ ys) =
        ((handleWebhook svc now (handleWebhook svc now st xs).1 ys).1,
         (handleWebhook svc now st xs).2 ++
           (handleWebhook svc now (handleWebhook svc now st xs).1 ys).2) := by
  intro xs
  induction xs with
  | nil => intro ys st; simp [handleWebhook]
  | cons e xs ih =>
    intro ys st
    simp only [List.cons_append, handleWebhook, List.append_eq]
    rw [ih]
    simp [List.append_assoc]

/-- C6: even when handling one event throws (its error component is
`some`), the `try`/`catch` in `handleWebhook` swallows the error: every
following event is still processed against the store that event left
behind, its effects are still emitted, and `handleWebhook` itself never
propagates an error (its return type carries none). -/
theorem webhook_error_isolation (svc : Service) (now : Int) (st : Store)
    (xs : List LineWebhookEvent) (e : LineWebhookEvent)
    (ys : List LineWebhookEvent)
    (herr : ((handleEvent svc now (handleWebhook svc now st xs).1 e).2.2).isSome
      = true) :
    handleWebhook svc now st (xs ++ e :: ys) =
      ((handleWebhook svc now
          (handleEvent svc now (handleWebhook svc now st xs).1 e).1 ys).1,
       (handleWebhook svc now st xs).2 ++
         ((handleEvent svc now (handleWebhook svc now st xs).1 e).2.1 ++
          (handleWebhook svc now
            (handleEvent svc now (handleWebhook svc now st xs).1 e).1 ys).2)) := by
  rw [handleWebhook_append svc now xs (e :: ys) st]
  simp only [handleWebhook]

/-- Collaborators whose text-generation backend always throws. -/
def envError : ServiceEnv :=
  ⟨fun _ => Except.error "backend down", fun _ => Except.error "backend down",
   fun _ _ => Except.ok (), fun _ => "1970-01-01T00:00:00.000Z"⟩

/-- `svcDemo` with the erroring backend. -/
def svcError : Service :=
  ⟨"secret", mkServiceStoreConfig 120 1440 500, 80, envError⟩

/-- `/fortune` message from user u1 (its handler calls the backend). -/
def eventFortune : LineWebhookEvent :=
  ⟨"message", some 1, some "tk1", ⟨"user", some "u1", none, none⟩,
   some ⟨none, "text", some "/fortune"⟩⟩

/-- `/help` message from user u2 (its handler only replies). -/
def eventHelp : LineWebhookEvent :=
  ⟨"message", some 2, some "tk2", ⟨"user", some "u2", none, none⟩,
   some ⟨none, "text", some "/help"⟩⟩

/-- Witness for `webhook_error_isolation` (end-to-end scenario E): the
backend call of the first event throws, yet the second event's reply is
still attempted. -/
theorem webhook_error_isolation_witness :
    (handleWebhook svcError 0 [] [eventFortune, eventHelp]).2 =
      [Effect.gen fortunePrompt, Effect.reply "tk2" helpText] :=
  (congrArg (fun p => p.2)
    (webhook_error_isolation svcError 0 [] [] eventFortune [eventHelp]
      (by decide))).trans (by decide)

/-- Claim-side reading of "the text starts with the /summary command
(case-insensitive)": the first eight characters lower to `/summary` and the
command token ends there — the text has no ninth character or its ninth
character is not a word character. -/
def specIsSummaryInvocation (t : String) : Bool :=
  startsWithCI "/summary".data t.data &&
    (decide (t.data.length ≤ 8) || !isWordChar (t.data.getD 8 'x'))

/-- The regex word boundary after position 8 equals the claim-side
"ends there or next char is not a word character". -/
theorem summaryBoundary_eq (l : List Char) :
    (match l.drop 8 with
     | [] => true
     | c :: _ => !isWordChar c) =
      (decide (l.length ≤ 8) || !isWordChar (l.getD 8 'x')) := by
  cases hd : l.drop 8 with
  | nil =>
    have hlen : l.length ≤ 8 := List.drop_eq_nil_iff.mp hd
    simp [hlen]
  | cons c cs =>
    have h0 : (List.drop 8 l)[0]? = some c := by
      rw [hd]
      simp
    rw [List.getElem?_drop] at h0
    have hc : l[8]? = some c := by simpa using h0
    have hlt : 8 < l.length := (List.getElem?_eq_some.mp hc).1
    have hlen : ¬l.length ≤ 8 := by omega
    simp [hlen, List.getD_eq_getElem?_getD, hc]

/-- The translation of `/^\/summary\b/i` agrees with the claim-side
predicate. -/
theorem matchSummary_eq_spec (t : String) :
    matchSummary t = specIsSummaryInvocation t := by
  unfold matchSummary specIsSummaryInvocation
  rw [summaryBoundary_eq]

/-- C8: the embedded history is an order-preserving (oldest-first)
sublist of the recent entries; an entry is embedded iff it is recent and
its text does not start with the /summary command (case-insensitive, word
boundary); and any prompt `handleSummary` sends to the backend is exactly
the summary prompt over that embedded history. -/
theorem summary_embedded_history (svc : Service) (now : Int) (st : Store)
    (cid token : String) :
    (summaryEmbeddedHistory svc now st cid).Sublist
      (storeGetRecent svc.cfg cid svc.summaryLimit now st).1 ∧
    (∀ en : MessageEntry,
      en ∈ summaryEmbeddedHistory svc now st cid ↔
        (en ∈ (storeGetRecent svc.cfg cid svc.summaryLimit now st).1 ∧
         specIsSummaryInvocation en.text = false)) ∧
    (∀ prompt : String,
      Effect.gen prompt ∈ (handleSummary svc now st cid token).2.1 →
        prompt = summaryPrompt svc.env.iso (summaryEmbeddedHistory svc now st cid)) := by
  refine ⟨List.filter_sublist _, ?_, ?_⟩
  · intro en
    unfold summaryEmbeddedHistory
    rw [List.mem_filter, Bool.not_eq_true', matchSummary_eq_spec]
  · intro prompt hmem
    unfold handleSummary at hmem
    by_cases hemp : (summaryEmbeddedHistory svc now st cid).isEmpty
    · rw [if_pos hemp] at hmem
      simp at hmem
    · rw [if_neg hemp] at hmem
      cases hg : svc.env.gen
          (summaryPrompt svc.env.iso (summaryEmbeddedHistory svc now st cid)) with
      | error m =>
        rw [hg] at hmem
        simp at hmem
        exact hmem
      | ok s =>
        rw [hg] at hmem
        simp at hmem
        exact hmem

/-- The default-configuration store after scenario A's two messages
(`"hello"` then `"/summary"` from user u1). -/
def stScenarioA : Store :=
  storeAdd (mkServiceStoreConfig 120 1440 500) "user:u1" ⟨some "u1", "/summary", 2⟩ 2
    (storeAdd (mkServiceStoreConfig 120 1440 500) "user:u1" ⟨some "u1", "hello", 1⟩ 1 [])

example :
    summaryEmbeddedHistory svcDemo 2 stScenarioA "user:u1" =
      [⟨some "u1", "hello", 1⟩] := by decide

/-- Witness for `summary_embedded_history` on scenario A: `"hello"` is
embedded (and `"/summary"` is not), and the prompt actually sent equals the
summary prompt over the embedded history. -/
theorem summary_embedded_history_witness :
    (⟨some "u1", "hello", 1⟩ : MessageEntry) ∈
      summaryEmbeddedHistory svcDemo 2 stScenarioA "user:u1" ∧
    summaryPrompt svcDemo.env.iso [⟨some "u1", "hello", 1⟩] =
      summaryPrompt svcDemo.env.iso
        (summaryEmbeddedHistory svcDemo 2 stScenarioA "user:u1") :=
  ⟨((summary_embedded_history svcDemo 2 stScenarioA "user:u1" "tk").2.1 _).mpr
      ⟨by decide, by decide⟩,
   (summary_embedded_history svcDemo 2 stScenarioA "user:u1" "tk").2.2 _ (by decide)⟩

/-- Recency order on map entries: earlier `lastSeen` first. -/
def RecencyLE (a b : String × ConversationBucket) : Prop :=
  a.2.lastSeen ≤ b.2.lastSeen

/-- The capacity loop only ever removes a prefix of the map. -/
theorem evictOldest_suffix (m : Nat) :
    ∀ st : Store, (evictOldest m st).IsSuffix st := by
  intro st
  induction st with
  | nil => exact List.suffix_refl _
  | cons kv rest ih =>
    unfold evictOldest
    by_cases h1 : (kv :: rest).length ≤ m
    · rw [if_pos h1]
    · rw [if_neg h1]
      by_cases h2 : (kv.1 == "") = true
      · rw [if_pos h2]
      · rw [if_neg h2]
        exact ih.trans (List.suffix_cons kv rest)

/-- With nonempty keys the capacity loop always reaches the cap. -/
theorem evictOldest_length (m : Nat) :
    ∀ st : Store, (∀ kv ∈ st, kv.1 ≠ "") → (evictOldest m st).length ≤ m := by
  intro st
  induction st with
  | nil => intro _; simp [evictOldest]
  | cons kv rest ih =>
    intro hkeys
    unfold evictOldest
    by_cases h1 : (kv :: rest).length ≤ m
    · rw [if_pos h1]
      exact h1
    · rw [if_neg h1]
      have h2 : ¬(kv.1 == "") = true := by
        simpa using hkeys kv (List.mem_cons_self kv rest)
      rw [if_neg h2]
      exact ih (fun kv' h => hkeys kv' (List.mem_cons_of_mem _ h))

/-- With a positive cap and nonempty keys, `cleanup` bounds the map size
by `maxConversations`. -/
theorem cleanup_length {cfg : StoreConfig} (hm : 0 < cfg.maxConversations)
    (now : Int) (st : Store) (hkeys : ∀ kv ∈ st, kv.1 ≠ "") :
    (cleanup cfg now st).length ≤ cfg.maxConversations := by
  unfold cleanup
  rw [if_pos hm]
  apply evictOldest_length
  intro kv h
  by_cases ht : cfg.ttlMs > 0
  · rw [if_pos ht] at h
    exact hkeys kv (List.mem_of_mem_filter h)
  · rw [if_neg ht] at h
    exact hkeys kv h

/-- `cleanup` preserves the recency ordering. -/
theorem cleanup_pairwise {cfg : StoreConfig} (now : Int) {st : Store}
    (h : st.Pairwise RecencyLE) : (cleanup cfg now st).Pairwise RecencyLE := by
  have h1 : (if cfg.ttlMs > 0 then
      st.filter (fun kv => decide (now - kv.2.lastSeen ≤ cfg.ttlMs)) else st).Pairwise
      RecencyLE := by
    by_cases ht : cfg.ttlMs > 0
    · rw [if_pos ht]
      exact h.filter _
    · rwa [if_neg ht]
  unfold cleanup
  by_cases hm : cfg.maxConversations > 0
  · rw [if_pos hm]
    exact List.Pairwise.sublist
      ((evictOldest_suffix cfg.maxConversations _).sublist) h1
  · rw [if_neg hm]
    exact h1

/-- Filtering out a present element strictly shrinks a list. -/
theorem length_filter_lt_of_mem {α} {l : List α} {p : α → Bool} {x : α}
    (hx : x ∈ l) (hpx : p x = false) : (l.filter p).length < l.length := by
  induction l with
  | nil => cases hx
  | cons a l ih =>
    rw [List.filter_cons]
    rcases List.mem_cons.mp hx with rfl | hmem
    · rw [hpx]
      simp only [if_false, List.length_cons, Bool.false_eq_true]
      exact Nat.lt_succ_of_le (List.length_filter_le _ _)
    · by_cases hpa : p a = true
      · rw [if_pos hpa]
        simp only [List.length_cons]
        exact Nat.succ_lt_succ (ih hmem)
      · rw [if_neg hpa]
        simp only [List.length_cons]
        exact Nat.lt_succ_of_lt (ih hmem)

/-- Well-formedness of a reachable store at a time bound `t`: nonempty
keys, entries ordered by recency, and no `lastSeen` in the future. -/
def StoreWF (t : Int) (st : Store) : Prop :=
  (∀ kv ∈ st, (kv.1 : String) ≠ "") ∧ st.Pairwise RecencyLE ∧
  (∀ kv ∈ st, (kv.2 : ConversationBucket).lastSeen ≤ t)

theorem storeWF_mono {t t' : Int} (h : t ≤ t') {st : Store}
    (hwf : StoreWF t st) : StoreWF t' st :=
  ⟨hwf.1, hwf.2.1, fun kv hkv => le_trans (hwf.2.2 kv hkv) h⟩

theorem storeWF_cleanup {cfg : StoreConfig} (now : Int) {t : Int} {st : Store}
    (hwf : StoreWF t st) : StoreWF t (cleanup cfg now st) :=
  ⟨fun kv hkv => hwf.1 kv (cleanup_mem cfg now st kv hkv),
   cleanup_pairwise now hwf.2.1,
   fun kv hkv => hwf.2.2 kv (cleanup_mem cfg now st kv hkv)⟩

/-- One `add` preserves well-formedness (at the operation's time) and, with
a positive cap, leaves at most `maxConversations + 1` buckets. -/
theorem storeAdd_wf (cfg : StoreConfig) {t : Int} {st : Store}
    (hwf : StoreWF t st) {now : Int} (hts : t ≤ now) {id : String}
    (hid : id ≠ "") (e : MessageEntry) :
    StoreWF now (storeAdd cfg id e now st) ∧
    (0 < cfg.maxConversations →
      (storeAdd cfg id e now st).length ≤ cfg.maxConversations + 1) := by
  have hclean : StoreWF t (cleanup cfg now st) := storeWF_cleanup now hwf
  constructor
  · refine ⟨?_, ?_, ?_⟩
    · intro kv hkv
      unfold storeAdd at hkv
      rcases List.mem_append.mp hkv with hl | hr
      · exact hclean.1 kv (List.mem_of_mem_filter hl)
      · have : kv = (id, ⟨listTruncFront cfg.limit
            (((storeLookup id (cleanup cfg now st)).getD ⟨[], now⟩).items ++ [e]),
            now⟩) := by simpa using hr
        rw [this]
        exact hid
    · unfold storeAdd
      rw [List.pairwise_append]
      refine ⟨hclean.2.1.filter _, by simp [RecencyLE], ?_⟩
      intro a ha b hb
      have hb' : b = (id, ⟨listTruncFront cfg.limit
          (((storeLookup id (cleanup cfg now st)).getD ⟨[], now⟩).items ++ [e]),
          now⟩) := by simpa using hb
      have haT : a.2.lastSeen ≤ t := hclean.2.2 a (List.mem_of_mem_filter ha)
      rw [hb']
      exact le_trans haT hts
    · intro kv hkv
      unfold storeAdd at hkv
      rcases List.mem_append.mp hkv with hl | hr
      · exact le_trans (hclean.2.2 kv (List.mem_of_mem_filter hl)) hts
      · have : kv = (id, ⟨listTruncFront cfg.limit
            (((storeLookup id (cleanup cfg now st)).getD ⟨[], now⟩).items ++ [e]),
            now⟩) := by simpa using hr
        rw [this]
  · intro hm
    unfold storeAdd
    rw [List.length_append]
    have h1 : (storeErase id (cleanup cfg now st)).length ≤
        (cleanup cfg now st).length := List.length_filter_le _ _
    have h2 : (cleanup cfg now st).length ≤ cfg.maxConversations :=
      cleanup_length hm now st hwf.1
    simp only [List.length_cons, List.length_nil]
    omega

/-- One `getRecent` preserves well-formedness and, with a positive cap,
leaves at most `maxConversations` buckets. -/
theorem storeGetRecent_wf (cfg : StoreConfig) {t : Int} {st : Store}
    (hwf : StoreWF t st) {now : Int} (hts : t ≤ now) (id : String) (n : Nat) :
    StoreWF now ((storeGetRecent cfg id n now st).2) ∧
    (0 < cfg.maxConversations →
      ((storeGetRecent cfg id n now st).2).length ≤ cfg.maxConversations) := by
  have hclean : StoreWF t (cleanup cfg now st) := storeWF_cleanup now hwf
  unfold storeGetRecent
  cases hl : storeLookup id (cleanup cfg now st) with
  | none =>
    simp only [hl]
    exact ⟨storeWF_mono hts hclean,
      fun hm => cleanup_length hm now st hwf.1⟩
  | some b =>
    simp only [hl]
    have hmemb : (id, b) ∈ cleanup cfg now st := storeLookup_mem hl
    have hidne : id ≠ "" := hclean.1 (id, b) hmemb
    constructor
    · refine ⟨?_, ?_, ?_⟩
      · intro kv hkv
        rcases List.mem_append.mp hkv with hl2 | hr
        · exact hclean.1 kv (List.mem_of_mem_filter hl2)
        · have : kv = (id, ⟨b.items, now⟩) := by simpa using hr
          rw [this]
          exact hidne
      · rw [List.pairwise_append]
        refine ⟨hclean.2.1.filter _, by simp [RecencyLE], ?_⟩
        intro a ha c hc
        have hc' : c = (id, ⟨b.items, now⟩) := by simpa using hc
        have haT : a.2.lastSeen ≤ t := hclean.2.2 a (List.mem_of_mem_filter ha)
        rw [hc']
        exact le_trans haT hts
      · intro kv hkv
        rcases List.mem_append.mp hkv with hl2 | hr
        · exact le_trans (hclean.2.2 kv (List.mem_of_mem_filter hl2)) hts
        · have : kv = (id, ⟨b.items, now⟩) := by simpa using hr
          rw [this]
    · intro hm
      rw [List.length_append]
      have h1 : (storeErase id (cleanup cfg now st)).length <
          (cleanup cfg now st).length := by
        apply length_filter_lt_of_mem hmemb
        simp
      have h2 : (cleanup cfg now st).length ≤ cfg.maxConversations :=
        cleanup_length hm now st hwf.1
      simp only [List.length_cons, List.length_nil]
      omega

/-- Along any operation sequence with nonempty ids and a nondecreasing
clock, the store stays well-formed; with a positive cap its size stays at
most `maxConversations + 1`. -/
theorem runOps_wf (cfg : StoreConfig) :
    ∀ (ops : List StoreOp) {t : Int} {st : Store}, StoreWF t st →
      (∀ op ∈ ops, op.opId ≠ "") →
      List.Chain' (· ≤ ·) (t :: ops.map StoreOp.opTime) →
      ∃ t', StoreWF t' (runOps cfg ops st) ∧
        (0 < cfg.maxConversations → st.length ≤ cfg.maxConversations + 1 →
          (runOps cfg ops st).length ≤ cfg.maxConversations + 1) := by
  intro ops
  induction ops with
  | nil =>
    intro t st hwf _ _
    exact ⟨t, hwf, fun _ h => h⟩
  | cons op rest ih =>
    intro t st hwf hids htimes
    rw [List.map_cons] at htimes
    obtain ⟨hto, hrest⟩ := List.chain'_cons.mp htimes
    cases op with
    | add now id e =>
      have hid : id ≠ "" := hids _ (List.mem_cons_self _ _)
      have hstep := storeAdd_wf cfg hwf hto hid e
      rw [runOps_cons]
      obtain ⟨t', hwf', hlen'⟩ :=
        ih hstep.1 (fun op h => hids op (List.mem_cons_of_mem _ h)) hrest
      exact ⟨t', hwf', fun hm _ => hlen' hm (hstep.2 hm)⟩
    | get now id n =>
      have hstep := storeGetRecent_wf cfg hwf hto id n
      rw [runOps_cons]
      obtain ⟨t', hwf', hlen'⟩ :=
        ih hstep.1 (fun op h => hids op (List.mem_cons_of_mem _ h)) hrest
      exact ⟨t', hwf', fun hm _ =>
        hlen' hm (le_trans (hstep.2 hm) (Nat.le_succ _))⟩

/-- On a recency-sorted store, anything `cleanup` removes was either
TTL-stale or had a `lastSeen` no later than that of every survivor. -/
theorem cleanup_evicts_least {cfg : StoreConfig} (now : Int) {st : Store}
    (hpw : st.Pairwise RecencyLE) :
    ∀ kv ∈ st, kv ∉ cleanup cfg now st →
      (0 < cfg.ttlMs ∧ cfg.ttlMs < now - (kv.2 : ConversationBucket).lastSeen) ∨
      (∀ kv' ∈ cleanup cfg now st,
        (kv.2 : ConversationBucket).lastSeen ≤
          (kv'.2 : ConversationBucket).lastSeen) := by
  intro kv hkv hnot
  by_cases ht : cfg.ttlMs > 0
  · by_cases hstale : cfg.ttlMs < now - kv.2.lastSeen
    · exact Or.inl ⟨ht, hstale⟩
    · right
      have hkv1 : kv ∈ st.filter
          (fun kv => decide (now - kv.2.lastSeen ≤ cfg.ttlMs)) :=
        List.mem_filter.mpr ⟨hkv, by
          simpa using (by omega : now - kv.2.lastSeen ≤ cfg.ttlMs)⟩
      by_cases hm : cfg.maxConversations > 0
      · have hcl : cleanup cfg now st = evictOldest cfg.maxConversations
            (st.filter (fun kv => decide (now - kv.2.lastSeen ≤ cfg.ttlMs))) := by
          unfold cleanup
          rw [if_pos ht, if_pos hm]
        obtain ⟨pre, hpre⟩ := evictOldest_suffix cfg.maxConversations
          (st.filter (fun kv => decide (now - kv.2.lastSeen ≤ cfg.ttlMs)))
        intro kv' hkv'
        rw [hcl] at hnot hkv'
        have hkvpre : kv ∈ pre := by
          rw [← hpre] at hkv1
          rcases List.mem_append.mp hkv1 with h | h
          · exact h
          · exact absurd h hnot
        have hpwf : (st.filter
            (fun kv => decide (now - kv.2.lastSeen ≤ cfg.ttlMs))).Pairwise
            RecencyLE := hpw.filter _
        rw [← hpre] at hpwf
        exact (List.pairwise_append.mp hpwf).2.2 kv hkvpre kv' hkv'
      · exfalso
        apply hnot
        have hcl : cleanup cfg now st = st.filter
            (fun kv => decide (now - kv.2.lastSeen ≤ cfg.ttlMs)) := by
          unfold cleanup
          rw [if_pos ht, if_neg hm]
        rw [hcl]
        exact hkv1
  · right
    by_cases hm : cfg.maxConversations > 0
    · have hcl : cleanup cfg now st = evictOldest cfg.maxConversations st := by
        unfold cleanup
        rw [if_neg ht, if_pos hm]
      obtain ⟨pre, hpre⟩ := evictOldest_suffix cfg.maxConversations st
      intro kv' hkv'
      rw [hcl] at hnot hkv'
      have hkv2 := hkv
      rw [← hpre] at hkv2
      have hkvpre : kv ∈ pre := by
        rcases List.mem_append.mp hkv2 with h | h
        · exact h
        · exact absurd h hnot
      have hpw2 := hpw
      rw [← hpre] at hpw2
      exact (List.pairwise_append.mp hpw2).2.2 kv hkvpre kv' hkv'
    · exfalso
      apply hnot
      have hcl : cleanup cfg now st = st := by
        unfold cleanup
        rw [if_neg ht, if_neg hm]
      rw [hcl]
      exact hkv

/-- C1 counterexample: with `maxConversations = 1`, two writes to distinct
conversations leave TWO buckets in the store — the cleanup pass runs
before, not after, the insertion, so a write can exceed the cap. -/
theorem capacity_after_write_cex :
    (runOps ⟨5, 0, 1⟩
      [.add 0 "A" ⟨none, "a", 0⟩, .add 1 "B" ⟨none, "b", 1⟩] []).length = 2 ∧
    ¬((runOps ⟨5, 0, 1⟩
      [.add 0 "A" ⟨none, "a", 0⟩, .add 1 "B" ⟨none, "b", 1⟩] []).length ≤ 1) := by
  constructor <;> decide

/-- C1 (amended): for `maxConversations = k > 0` and any operation
sequence (nonempty conversation ids, nondecreasing clock) from the empty
store, the store holds at most `k + 1` buckets — a write can exceed the
cap by one until the cleanup pass at the start of the next operation
restores it to at most `k` (second conjunct, for any clock value) — and
every bucket removed while TTL-fresh has a `lastSeen` no later than that
of every surviving bucket (least-recently-seen-first eviction). -/
theorem capacity_eviction_amended (cfg : StoreConfig)
    (hmax : 0 < cfg.maxConversations) (ops : List StoreOp) (t0 : Int)
    (hids : ∀ op ∈ ops, op.opId ≠ "")
    (htimes : List.Chain' (· ≤ ·) (t0 :: ops.map StoreOp.opTime)) :
    (runOps cfg ops []).length ≤ cfg.maxConversations + 1 ∧
    (∀ now : Int,
      (cleanup cfg now (runOps cfg ops [])).length ≤ cfg.maxConversations) ∧
    (∀ (now : Int) (kv : String × ConversationBucket),
      kv ∈ runOps cfg ops [] → kv ∉ cleanup cfg now (runOps cfg ops []) →
      (0 < cfg.ttlMs ∧ cfg.ttlMs < now - (kv.2 : ConversationBucket).lastSeen) ∨
      (∀ kv' ∈ cleanup cfg now (runOps cfg ops []),
        (kv.2 : ConversationBucket).lastSeen ≤
          (kv'.2 : ConversationBucket).lastSeen)) := by
  have hwf0 : StoreWF t0 ([] : Store) :=
    ⟨fun kv h => absurd h (List.not_mem_nil kv), List.Pairwise.nil,
     fun kv h => absurd h (List.not_mem_nil kv)⟩
  obtain ⟨t', hwf, hlen⟩ := runOps_wf cfg ops hwf0 hids htimes
  refine ⟨hlen hmax (by simp), ?_, ?_⟩
  · intro now
    exact cleanup_length hmax now _ hwf.1
  · intro now kv h1 h2
    exact cleanup_evicts_least now hwf.2.1 kv h1 h2

/-- Three writes to distinct conversations at increasing times. -/
def opsCap : List StoreOp :=
  [.add 0 "A" ⟨none, "a", 0⟩, .add 1 "B" ⟨none, "b", 1⟩,
   .add 2 "C" ⟨none, "c", 2⟩]

/-- Witness for `capacity_eviction_amended` at cap 2. -/
theorem capacity_eviction_amended_witness :
    (runOps ⟨5, 0, 2⟩ opsCap []).length ≤ 2 + 1 ∧
    (cleanup ⟨5, 0, 2⟩ 3 (runOps ⟨5, 0, 2⟩ opsCap [])).length ≤ 2 :=
  ⟨(capacity_eviction_amended ⟨5, 0, 2⟩ (by decide) opsCap 0 (by decide)
      (by simp [opsCap, StoreOp.opTime, List.chain'_cons])).1,
   (capacity_eviction_amended ⟨5, 0, 2⟩ (by decide) opsCap 0 (by decide)
      (by simp [opsCap, StoreOp.opTime, List.chain'_cons])).2.1 3⟩
